import Mathlib

/-!
Verification of the MCP API Converter core (tool registry, schema validator,
request router) against its natural-language specification.

The development shallowly embeds the TypeScript sources:
  * `src/core/BaseTool.ts`   — `BaseTool` (schema, `validate`, `getToolDefinition`,
    the JSON-Schema-to-Zod conversion) and `HTTPTransport` (`parseMCPRequest`,
    `routeRequest`, `handleToolsList`, `handleToolsCall`, `handleRequest`).
  * `src/core/MCPServer.ts`  — the registry (`registerTool`, `listTools`,
    `executeTool`, `getToolCount`, `hasTool`).
  * `src/types.ts`           — `SchemaProperty`, `ToolDefinition`, `MCPResponse`.

JavaScript runtime values are modelled by the inductive `JsonValue`; JS objects
are key-value lists with unique keys (object literals and `JSON.parse` results
never carry duplicate keys), and `Map<string, BaseTool>` is a key-value list in
insertion order.  Promises and thrown errors are modelled by `Except String`.
-/

namespace MCP

/-! ## JSON values (JavaScript runtime data reaching the core) -/

mutual
inductive JsonValue where
  | null : JsonValue
  | bool (b : Bool) : JsonValue
  | num (n : Int) : JsonValue
  | str (s : String) : JsonValue
  | arr (xs : JsonArray) : JsonValue
  | obj (fs : JsonFields) : JsonValue

inductive JsonArray where
  | nil : JsonArray
  | cons (v : JsonValue) (rest : JsonArray) : JsonArray

inductive JsonFields where
  | nil : JsonFields
  | cons (key : String) (v : JsonValue) (rest : JsonFields) : JsonFields
end

/-- Build a `JsonArray` from a Lean list (literal notation helper). -/
def jarr : List JsonValue → JsonArray
  | [] => .nil
  | v :: rest => .cons v (jarr rest)

/-- Build `JsonFields` from a Lean association list (literal notation helper). -/
def jobj : List (String × JsonValue) → JsonFields
  | [] => .nil
  | (k, v) :: rest => .cons k v (jobj rest)

/-- First binding of key `k` in an object's field list.  JS objects have unique
keys, so the first binding is the only one. -/
def lookupField (fs : JsonFields) (k : String) : Option JsonValue :=
  match fs with
  | .nil => none
  | .cons k' v rest => if k' = k then some v else lookupField rest k

/-- JS property read `v.k`: a field of an object, `undefined` (here `none`)
otherwise.  (Reading a property of `null` throws in JS; the router only reads
properties of non-null values on its reachable paths, see `parseMCPRequest`.) -/
def getField (v : JsonValue) (k : String) : Option JsonValue :=
  match v with
  | .obj fs => lookupField fs k
  | _ => none

/-- Append one extra field at the end of an object's field list. -/
def appendField : JsonFields → String → JsonValue → JsonFields
  | .nil, k, w => .cons k w .nil
  | .cons k' v rest, k, w => .cons k' v (appendField rest k w)

/-- JS truthiness of a value. -/
def truthy : JsonValue → Bool
  | .null => false
  | .bool b => b
  | .num n => n != 0
  | .str s => s ≠ ""
  | .arr _ => true
  | .obj _ => true

/-- JS truthiness where `none` stands for `undefined`. -/
def truthyOpt : Option JsonValue → Bool
  | none => false
  | some v => truthy v

/-- JS strict equality `v === "lit"` between a possibly-undefined value and a
string literal. -/
def strictEqStr : Option JsonValue → String → Bool
  | some (.str s), t => s = t
  | _, _ => false

mutual
/-- JS `String(v)` as used in template literals for the error messages of the
router (`Unsupported method: ...`, `Tool '...' not found`).  All reachable
claim-relevant uses display strings. -/
def jsDisplay : JsonValue → String
  | .null => "null"
  | .bool true => "true"
  | .bool false => "false"
  | .num n => toString n
  | .str s => s
  | .arr xs => jsDisplayArr xs
  | .obj _ => "[object Object]"

def jsDisplayArr : JsonArray → String
  | .nil => ""
  | .cons v .nil => jsDisplay v
  | .cons v rest => jsDisplay v ++ "," ++ jsDisplayArr rest
end

/-! ## `SchemaProperty` (src/types.ts) -/

mutual
/-- `SchemaProperty` from src/types.ts: a JSON-Schema node with a `type` tag and
optional `description`, `enum`, `items`, `properties`, `required`. -/
inductive SchemaProperty where
  | mk (type : String) (description : Option String) (enum : Option (List String))
       (items : Option SchemaProperty)
       (properties : Option SchemaProps)
       (required : Option (List String)) : SchemaProperty

/-- The `properties` record of a `SchemaProperty`: field name to sub-schema,
in literal order, unique keys. -/
inductive SchemaProps where
  | nil : SchemaProps
  | cons (key : String) (prop : SchemaProperty) (rest : SchemaProps) : SchemaProps
end

def SchemaProperty.type : SchemaProperty → String
  | .mk t _ _ _ _ _ => t

def SchemaProperty.properties : SchemaProperty → Option SchemaProps
  | .mk _ _ _ _ pr _ => pr

def SchemaProperty.required : SchemaProperty → Option (List String)
  | .mk _ _ _ _ _ req => req

/-- First sub-schema declared for key `k` in a `properties` record. -/
def lookupProp (props : SchemaProps) (k : String) : Option SchemaProperty :=
  match props with
  | .nil => none
  | .cons k' p rest => if k' = k then some p else lookupProp rest k

/-- Membership of a key among the declared `properties`. -/
def propsHasKey (props : SchemaProps) (k : String) : Bool :=
  match props with
  | .nil => false
  | .cons k' _ rest => k' = k || propsHasKey rest k

/-! ## Zod schemas as built by `BaseTool` (src/core/BaseTool.ts)

`jsonSchemaToZod` / `convertPropertyToZod` build Zod validators out of
`z.string()`, `z.number()`, `z.boolean()`, `z.array(...)`, `z.object(...)`
(with `.optional()` wrappers), `z.record(z.any())` and `z.any()`.  `ZodType`
is exactly that fragment; `zodParse` is whether `.parse` succeeds:
  * `z.object` requires a plain object, checks each declared key against its
    sub-validator (a missing key passes iff the entry is `.optional()` or its
    validator accepts `undefined`, which of this fragment only `z.any()` does),
    and strips unknown keys without rejecting them;
  * primitives match their exact runtime kind, with no coercion;
  * `z.array` requires an array and checks every element;
  * `z.record(z.any())` requires a plain object;
  * `z.any()` accepts everything.
-/

mutual
inductive ZodType where
  | zstring : ZodType
  | znumber : ZodType
  | zboolean : ZodType
  | zany : ZodType
  | zrecord : ZodType
  | zarray (elem : ZodType) : ZodType
  | zobject (shape : ZodShape) : ZodType

inductive ZodShape where
  | nil : ZodShape
  | cons (key : String) (t : ZodType) (opt : Bool) (rest : ZodShape) : ZodShape
end

/-- Whether the validator accepts `undefined` (a missing object key) even
without an `.optional()` wrapper; in this fragment only `z.any()` does. -/
def acceptsUndefined : ZodType → Bool
  | .zany => true
  | _ => false

/-- Membership of a key among a Zod object shape's declared keys. -/
def shapeHasKey : ZodShape → String → Bool
  | .nil, _ => false
  | .cons k' _ _ rest, k => k' = k || shapeHasKey rest k

/-- Keys a Zod validator constrains: the shape keys of a `z.object`, nothing
for every other validator of the fragment. -/
def zshapeHasKey : ZodType → String → Bool
  | .zobject shape, k => shapeHasKey shape k
  | _, _ => false

/-- All elements of a JSON array satisfy `p`. -/
def arrAll (p : JsonValue → Bool) : JsonArray → Bool
  | .nil => true
  | .cons v rest => p v && arrAll p rest

mutual
/-- Success of `zodSchema.parse(v)` for the Zod fragment built by `BaseTool`. -/
def zodParse : ZodType → JsonValue → Bool
  | .zstring, v => match v with | .str _ => true | _ => false
  | .znumber, v => match v with | .num _ => true | _ => false
  | .zboolean, v => match v with | .bool _ => true | _ => false
  | .zany, _ => true
  | .zrecord, v => match v with | .obj _ => true | _ => false
  | .zarray t, v => match v with | .arr xs => arrAll (fun x => zodParse t x) xs | _ => false
  | .zobject shape, v => match v with | .obj fs => zodParseShape shape fs | _ => false

def zodParseShape : ZodShape → JsonFields → Bool
  | .nil, _ => true
  | .cons k t opt rest, fs =>
      (match lookupField fs k with
       | some v => zodParse t v
       | none => opt || acceptsUndefined t) && zodParseShape rest fs
end

mutual
/-- `BaseTool.convertPropertyToZod` (BaseTool.ts lines 105-130): `string`,
`number`, `boolean` map to the primitive validators; `array` maps to
`z.array` of the converted `items` (or `z.array(z.any())` without `items`);
`object` maps to `z.object` over the converted `properties` — every entry
non-optional, the node's own `required` list is never read — or
`z.record(z.any())` without `properties`; any other `type` maps to `z.any()`. -/
def convertPropertyToZod : SchemaProperty → ZodType
  | .mk t _ _ it pr _ =>
    if t = "string" then .zstring
    else if t = "number" then .znumber
    else if t = "boolean" then .zboolean
    else if t = "array" then
      match it with
      | some i => .zarray (convertPropertyToZod i)
      | none => .zarray .zany
    else if t = "object" then
      match pr with
      | some props => .zobject (convertProps props)
      | none => .zrecord
    else .zany

def convertProps : SchemaProps → ZodShape
  | .nil => .nil
  | .cons k p rest => .cons k (convertPropertyToZod p) false (convertProps rest)
end

/-- The shape of the top-level `z.object`: each declared property converted by
`convertPropertyToZod`, made `.optional()` iff its key is not in the schema's
`required` list (BaseTool.ts lines 82-92). -/
def buildTopShape (props : SchemaProps) (req : List String) : ZodShape :=
  match props with
  | .nil => .nil
  | .cons k p rest => .cons k (convertPropertyToZod p) (! req.contains k) (buildTopShape rest req)

/-- `BaseTool.jsonSchemaToZod` (BaseTool.ts lines 78-98): an `object` schema
becomes `z.object` over its properties (absent `properties` giving the empty
shape, absent `required` making every property optional); any other top-level
`type` becomes `z.any()`. -/
def jsonSchemaToZod (schema : SchemaProperty) : ZodType :=
  match schema with
  | .mk t _ _ _ pr req =>
    if t = "object" then
      .zobject (buildTopShape (match pr with | some props => props | none => .nil)
                              (match req with | some r => r | none => []))
    else .zany

/-- `BaseTool.validate` (BaseTool.ts lines 52-61): convert the input schema to
Zod and report whether `.parse` succeeds — `true` or `false`, nothing else. -/
def validateParams (schema : SchemaProperty) (params : JsonValue) : Bool :=
  zodParse (jsonSchemaToZod schema) params

/-! ## Tool contract and registry (src/core/BaseTool.ts, src/core/MCPServer.ts) -/

/-- The capabilities of a `BaseTool` subclass: `name`, `description`,
`inputSchema`, and `execute` (a promise that resolves to a result or rejects
with an error message). -/
structure BaseTool where
  name : String
  description : String
  inputSchema : SchemaProperty
  execute : JsonValue → Except String JsonValue

/-- `ToolDefinition` from src/types.ts. -/
structure ToolDefinition where
  name : String
  description : String
  inputSchema : SchemaProperty

/-- `BaseTool.getToolDefinition` (BaseTool.ts lines 39-45). -/
def BaseTool.getToolDefinition (tool : BaseTool) : ToolDefinition :=
  { name := tool.name, description := tool.description, inputSchema := tool.inputSchema }

/-- `tool.validate(params)` — validate against the tool's own input schema. -/
def BaseTool.validate (tool : BaseTool) (params : JsonValue) : Bool :=
  validateParams tool.inputSchema params

/-- The `MCPServer` state: its `Map<string, BaseTool>` as a key-value list in
insertion order (keys unique: `registerTool` refuses duplicates). -/
structure MCPServer where
  tools : List (String × BaseTool)

/-- `new MCPServer()` starts with an empty map. -/
def mkMCPServer : MCPServer := { tools := [] }

/-- `Map.get` on the tools map. -/
def mapGet (m : List (String × BaseTool)) (k : String) : Option BaseTool :=
  match m with
  | [] => none
  | (k', v) :: rest => if k' = k then some v else mapGet rest k

/-- `MCPServer.hasTool` (MCPServer.ts lines 100-102). -/
def MCPServer.hasTool (s : MCPServer) (name : String) : Bool :=
  (mapGet s.tools name).isSome

/-- `MCPServer.registerTool` (MCPServer.ts lines 22-34), in state-passing form:
the new registry state paired with the thrown error message, if any.  A
duplicate name throws before any mutation, so the state is returned unchanged;
otherwise `Map.set` appends the binding. -/
def MCPServer.registerTool (s : MCPServer) (tool : BaseTool) : MCPServer × Option String :=
  if (mapGet s.tools tool.name).isSome then
    (s, some ("Tool with name '" ++ tool.name ++ "' is already registered"))
  else
    ({ tools := s.tools ++ [(tool.name, tool)] }, none)

/-- `MCPServer.listTools` (MCPServer.ts lines 40-48): the registered tools'
definitions in insertion order. -/
def MCPServer.listTools (s : MCPServer) : List ToolDefinition :=
  s.tools.map (fun p => p.2.getToolDefinition)

/-- `MCPServer.getToolCount` (MCPServer.ts lines 91-93). -/
def MCPServer.getToolCount (s : MCPServer) : Nat :=
  s.tools.length

/-- `MCPServer.executeTool` (MCPServer.ts lines 57-85).  The `name` argument is
declared `string` in TS but arrives untyped from the wire (the transport only
checks it for truthiness), so it is modelled as a `JsonValue`; `Map.get` with a
non-string key cannot hit the string-keyed map.  Lookup failure and validation
failure throw; on success the tool's `execute` runs and its failure is
rethrown unchanged. -/
def MCPServer.executeTool (s : MCPServer) (name : JsonValue) (params : JsonValue) :
    Except String JsonValue :=
  match (match name with | .str n => mapGet s.tools n | _ => none) with
  | none => .error ("Tool '" ++ jsDisplay name ++ "' not found")
  | some tool =>
    if tool.validate params then tool.execute params
    else .error ("Invalid parameters for tool '" ++ jsDisplay name ++ "'")

/-- The startup registration loop: register each tool in order, stopping at the
first `DuplicateNameError` (registration failure is fatal at startup). -/
def registerAll (s : MCPServer) : List BaseTool → MCPServer × Option String
  | [] => (s, none)
  | t :: ts =>
    match s.registerTool t with
    | (s', none) => registerAll s' ts
    | (s', some e) => (s', some e)

/-! ## HTTP transport routing (src/core/BaseTool.ts, `HTTPTransport`)

The model covers the MCP-protocol path of `handleRequest`: the request body has
been JSON-decoded into a `JsonValue`; CORS, OPTIONS/GET handling and body
framing are wire mechanics outside the core.  Thrown errors are `Except.error`
and the `catch` in `handleRequest` converts them to a 400 `BAD_REQUEST`
response. -/

/-- `MCPResponse` from src/types.ts: optional `result`, optional `error`. -/
structure MCPError where
  code : Int
  message : String
  deriving DecidableEq

structure MCPResponse where
  result : Option JsonValue
  error : Option MCPError

/-- The optional chain `parsed.params?.name`. -/
def paramsName (parsed : JsonValue) : Option JsonValue :=
  match getField parsed "params" with
  | some p => getField p "name"
  | none => none

/-- `HTTPTransport.parseMCPRequest` (BaseTool.ts lines 274-292): require a
truthy `method`, require it to be exactly `tools/list` or `tools/call`, and for
`tools/call` require a truthy `params?.name`; return the parsed value itself
(`parsed as MCPRequest`). -/
def parseMCPRequest (parsed : JsonValue) : Except String JsonValue :=
  if ! truthyOpt (getField parsed "method") then
    .error "Missing required field: method"
  else if ! strictEqStr (getField parsed "method") "tools/list"
          && ! strictEqStr (getField parsed "method") "tools/call" then
    .error ("Unsupported method: " ++ jsDisplay ((getField parsed "method").getD .null))
  else if strictEqStr (getField parsed "method") "tools/call"
          && ! truthyOpt (paramsName parsed) then
    .error "Missing required field: params.name for tools/call"
  else
    .ok parsed

mutual
/-- Wire JSON of a `SchemaProperty`, as serialized into a `tools/list`
response. -/
def schemaJson : SchemaProperty → JsonValue
  | .mk t d e it pr req =>
    .obj (jobj ([("type", JsonValue.str t)]
      ++ (match d with | some s => [("description", JsonValue.str s)] | none => [])
      ++ (match e with | some l => [("enum", JsonValue.arr (jarr (l.map JsonValue.str)))] | none => [])
      ++ (match it with | some i => [("items", schemaJson i)] | none => [])
      ++ (match pr with | some props => [("properties", JsonValue.obj (schemaPropsJson props))] | none => [])
      ++ (match req with | some r => [("required", JsonValue.arr (jarr (r.map JsonValue.str)))] | none => [])))

def schemaPropsJson : SchemaProps → JsonFields
  | .nil => .nil
  | .cons k p rest => .cons k (schemaJson p) (schemaPropsJson rest)
end

/-- Wire JSON of a `ToolDefinition`. -/
def toolDefinitionJson (d : ToolDefinition) : JsonValue :=
  .obj (jobj [("name", .str d.name), ("description", .str d.description),
              ("inputSchema", schemaJson d.inputSchema)])

/-- `HTTPTransport.handleToolsList` (BaseTool.ts lines 339-349):
`{ result: { tools } }` with the registry's current definitions. -/
def handleToolsList (s : MCPServer) : MCPResponse :=
  { result := some (.obj (.cons "tools" (.arr (jarr (s.listTools.map toolDefinitionJson))) .nil))
    error := none }

/-- `HTTPTransport.handleToolsCall` (BaseTool.ts lines 356-381): destructure
`name` and `arguments` from `params`, throw `Tool name is required` for a falsy
name (unreachable after `parseMCPRequest`), call `executeTool` with
`args || {}`, wrap success as `{ result }` and any execution-path failure as
`{ error: { code: -32603, message } }`. -/
def handleToolsCall (s : MCPServer) (params : JsonValue) : Except String MCPResponse :=
  let name := getField params "name"
  let args := getField params "arguments"
  if ! truthyOpt name then
    .error "Tool name is required"
  else
    .ok (match s.executeTool (name.getD .null)
                 (match args with
                  | some a => if truthy a then a else .obj .nil
                  | none => .obj .nil) with
      | .ok r => { result := some r, error := none }
      | .error msg => { result := none, error := some { code := -32603, message := msg } })

/-- `HTTPTransport.routeRequest` (BaseTool.ts lines 299-314): dispatch on the
(already validated) `method`; the final `Unsupported method` throw is
unreachable after `parseMCPRequest`. -/
def routeRequest (s : MCPServer) (request : JsonValue) : Except String MCPResponse :=
  if strictEqStr (getField request "method") "tools/list" then
    .ok (handleToolsList s)
  else if strictEqStr (getField request "method") "tools/call" then
    handleToolsCall s ((getField request "params").getD .null)
  else
    .error ("Unsupported method: " ++ jsDisplay ((getField request "method").getD .null))

/-- `HTTPTransport.sendErrorResponse` as invoked from the `catch` of
`handleRequest` for a thrown `Error` (BaseTool.ts lines 237-238, 403-421):
`{ error: { code: 400, message: "BAD_REQUEST: " + message } }`. -/
def badRequest (message : String) : MCPResponse :=
  { result := none, error := some { code := 400, message := "BAD_REQUEST: " ++ message } }

/-- `HTTPTransport.handleRequest` (BaseTool.ts lines 186-243) on the MCP
protocol path, in state-passing form: parse the decoded payload, route it, and
send either the routed response or the 400 `BAD_REQUEST` conversion of a
thrown error.  No path mutates the registry, so the state component is the
input registry. -/
def handleRequest (s : MCPServer) (payload : JsonValue) : MCPServer × MCPResponse :=
  match parseMCPRequest payload with
  | .error e => (s, badRequest e)
  | .ok req =>
    match routeRequest s req with
    | .ok resp => (s, resp)
    | .error e => (s, badRequest e)

/-! ## Spec-side structural satisfaction

`specSatisfies` renders the specification's validation recipe (spec §4.1 and
the C2 generation recipe) word for word, honoring `required` lists at every
level: an `object` value must carry every required field, every present
declared field recursively satisfies its sub-schema, undeclared fields are
ignored; primitives match their exact kind; `array` elements satisfy the
element schema (absent `items` accepting any elements); an unrecognized kind
accepts anything.  It is compared against the code's `validateParams`. -/

mutual
def specSatisfies : SchemaProperty → JsonValue → Bool
  | .mk t _ _ it pr req, v =>
    if t = "object" then
      match v with
      | .obj fs => match pr with
                   | some props =>
                       specSatisfiesProps props (match req with | some r => r | none => []) fs
                   | none => true
      | _ => false
    else if t = "string" then
      match v with | .str _ => true | _ => false
    else if t = "number" then
      match v with | .num _ => true | _ => false
    else if t = "boolean" then
      match v with | .bool _ => true | _ => false
    else if t = "array" then
      match v with
      | .arr xs => match it with
                   | some i => arrAll (fun x => specSatisfies i x) xs
                   | none => true
      | _ => false
    else true

def specSatisfiesProps : SchemaProps → List String → JsonFields → Bool
  | .nil, _, _ => true
  | .cons k p rest, req, fs =>
      (match lookupField fs k with
       | some v => specSatisfies p v
       | none => ! req.contains k) && specSatisfiesProps rest req fs
end

mutual
/-- Structural satisfaction as the code actually demands it below the top
level: like `specSatisfies`, except that an `object` value must carry *every*
field its sub-schema declares — the sub-schema's own `required` list plays no
role (`convertPropertyToZod` never reads it). -/
def strictSatisfies : SchemaProperty → JsonValue → Bool
  | .mk t _ _ it pr _, v =>
    if t = "object" then
      match v with
      | .obj fs => match pr with
                   | some props => strictSatisfiesProps props fs
                   | none => true
      | _ => false
    else if t = "string" then
      match v with | .str _ => true | _ => false
    else if t = "number" then
      match v with | .num _ => true | _ => false
    else if t = "boolean" then
      match v with | .bool _ => true | _ => false
    else if t = "array" then
      match v with
      | .arr xs => match it with
                   | some i => arrAll (fun x => strictSatisfies i x) xs
                   | none => true
      | _ => false
    else true

def strictSatisfiesProps : SchemaProps → JsonFields → Bool
  | .nil, _ => true
  | .cons k p rest, fs =>
      (match lookupField fs k with
       | some v => strictSatisfies p v
       | none => false) && strictSatisfiesProps rest fs
end

/-- Top-level structural satisfaction: the schema's own `required` list is
honored at the top level (required fields present, non-required fields freely
absent), while every present field satisfies its sub-schema in the strict
nested sense. -/
def topSatisfiesProps : SchemaProps → List String → JsonFields → Bool
  | .nil, _, _ => true
  | .cons k p rest, req, fs =>
      (match lookupField fs k with
       | some v => strictSatisfies p v
       | none => ! req.contains k) && topSatisfiesProps rest req fs

def topSatisfies (schema : SchemaProperty) (v : JsonValue) : Bool :=
  match schema with
  | .mk t _ _ _ pr req =>
    if t = "object" then
      match v with
      | .obj fs => topSatisfiesProps (match pr with | some props => props | none => .nil)
                                     (match req with | some r => r | none => []) fs
      | _ => false
    else strictSatisfies schema v

/-- Schema kinds whose converted validator rejects a missing key: everything
except the unrecognized-kind escape hatch to `z.any()`. -/
def strictKind (p : SchemaProperty) : Bool :=
  p.type = "string" || p.type = "number" || p.type = "boolean"
    || p.type = "array" || p.type = "object"

/-- Whether the schema declares `k` among its `properties`. -/
def schemaDeclares (p : SchemaProperty) (k : String) : Bool :=
  match p.properties with
  | some props => propsHasKey props k
  | none => false

/-- The payload's `method` is absent, falsy, or not one of the two recognized
method strings (the condition under which `parseMCPRequest` rejects the
payload before any dispatch). -/
def methodUnrecognized (payload : JsonValue) : Bool :=
  ! truthyOpt (getField payload "method")
    || (! strictEqStr (getField payload "method") "tools/list"
        && ! strictEqStr (getField payload "method") "tools/call")

/-! ## Concrete fixtures for the scenario claims -/

/-- The scenario schema `{type: object, properties: {location: {type: string}},
required: [location]}`. -/
def weatherSchema : SchemaProperty :=
  .mk "object" none none none
    (some (.cons "location" (.mk "string" none none none none none) .nil))
    (some ["location"])

/-- The stub tool contract of the successful-call scenario: named
`get-weather`, carrying `weatherSchema`, echoing its `location` argument back
as `{"echo": ...}`. -/
def echoTool : BaseTool :=
  { name := "get-weather"
    description := "stub tool that echoes its argument"
    inputSchema := weatherSchema
    execute := fun args => .ok (.obj (.cons "echo" ((getField args "location").getD .null) .nil)) }

/-- A registry holding exactly the stub tool. -/
def echoServer : MCPServer := (mkMCPServer.registerTool echoTool).1

/-- The scenario request exactly as the claim writes it, with method `call`. -/
def specCallPayload : JsonValue :=
  .obj (jobj [("method", .str "call"),
              ("params", .obj (jobj [("name", .str "get-weather"),
                                     ("arguments", .obj (jobj [("location", .str "London")]))]))])

/-- The same request with the method name the code recognizes, `tools/call`. -/
def toolsCallPayload : JsonValue :=
  .obj (jobj [("method", .str "tools/call"),
              ("params", .obj (jobj [("name", .str "get-weather"),
                                     ("arguments", .obj (jobj [("location", .str "London")]))]))])

/-- The malformed-request scenario payload. -/
def unknownMethodPayload : JsonValue :=
  .obj (jobj [("method", .str "unknown")])

/-- A `tools/call` naming an unregistered tool. -/
def unknownToolPayload : JsonValue :=
  .obj (jobj [("method", .str "tools/call"),
              ("params", .obj (jobj [("name", .str "does-not-exist"),
                                     ("arguments", .obj .nil)]))])

/-- A `tools/call` of the stub tool with empty arguments (missing the required
`location`). -/
def missingArgsPayload : JsonValue :=
  .obj (jobj [("method", .str "tools/call"),
              ("params", .obj (jobj [("name", .str "get-weather"),
                                     ("arguments", .obj .nil)]))])

/-- A `tools/call` request payload wrapping the given `params` value. -/
def callPayload (p : JsonValue) : JsonValue :=
  .obj (.cons "method" (.str "tools/call") (.cons "params" p .nil))

/-- A schema whose nested object property declares `b` but does not require it:
`{type: object, properties: {a: {type: object, properties: {b: {type: string}},
required: []}}, required: [a]}`. -/
def nestedSchema : SchemaProperty :=
  .mk "object" none none none
    (some (.cons "a" (.mk "object" none none none
      (some (.cons "b" (.mk "string" none none none none none) .nil))
      (some [])) .nil))
    (some ["a"])

/-- A value satisfying `nestedSchema` per the spec's recipe: `a` is present and
its declared-optional field `b` is absent. -/
def nestedValue : JsonValue := .obj (jobj [("a", .obj .nil)])

/-- A second stub tool with a distinct name, for registration scenarios. -/
def clockTool : BaseTool :=
  { name := "get-time"
    description := "stub tool that returns a fixed time"
    inputSchema := .mk "object" none none none (some .nil) none
    execute := fun _ => .ok (.str "12:00") }

/-- A tool sharing `echoTool`'s name but otherwise different, for the
duplicate-registration scenario. -/
def echoToolClone : BaseTool :=
  { name := "get-weather"
    description := "second contract with a colliding name"
    inputSchema := .mk "object" none none none (some .nil) none
    execute := fun _ => .ok .null }

/-! ## Registry lemmas and claims C3, C8 -/

theorem mapGet_append (m1 m2 : List (String × BaseTool)) (k : String) :
    mapGet (m1 ++ m2) k
      = (match mapGet m1 k with | some v => some v | none => mapGet m2 k) := by
  induction m1 with
  | nil => simp [mapGet]
  | cons hd tl ih =>
    obtain ⟨k', v⟩ := hd
    by_cases hk : k' = k
    · simp [mapGet, hk]
    · simp [mapGet, hk, ih]

theorem registerAll_disjoint : ∀ (ts : List BaseTool) (s : MCPServer),
    (∀ t ∈ ts, mapGet s.tools t.name = none) → (ts.map BaseTool.name).Nodup →
    registerAll s ts = ({ tools := s.tools ++ ts.map (fun t => (t.name, t)) }, none)
  | [], s, _, _ => by simp [registerAll]
  | t :: ts, s, hdisj, hnodup => by
    have hmiss : mapGet s.tools t.name = none := hdisj t (List.mem_cons_self t ts)
    have hstep : s.registerTool t = ({ tools := s.tools ++ [(t.name, t)] }, none) := by
      simp [MCPServer.registerTool, hmiss]
    simp only [registerAll, hstep]
    have hnd : t.name ∉ ts.map BaseTool.name ∧ (ts.map BaseTool.name).Nodup := by
      rw [List.map_cons] at hnodup
      exact List.nodup_cons.mp hnodup
    have hdisj' : ∀ t' ∈ ts, mapGet (s.tools ++ [(t.name, t)]) t'.name = none := by
      intro t' ht'
      rw [mapGet_append, hdisj t' (List.mem_cons_of_mem t ht')]
      have hne : t.name ≠ t'.name := by
        intro he
        exact hnd.1 (he ▸ List.mem_map_of_mem BaseTool.name ht')
      simp [mapGet, hne]
    have hrec := registerAll_disjoint ts { tools := s.tools ++ [(t.name, t)] } hdisj' hnd.2
    rw [hrec]
    simp

/-- Claim C3: registering a second contract with the name of an already
registered one fails with the duplicate-name error, returns the registry
unchanged (the same state `s1`, no overwrite and no insertion), and the tool
count still reflects only the first registration. -/
theorem claim3_duplicate_rejected (s s1 : MCPServer) (t1 t2 : BaseTool)
    (hname : t2.name = t1.name) (hreg : s.registerTool t1 = (s1, none)) :
    s1.registerTool t2
      = (s1, some ("Tool with name '" ++ t2.name ++ "' is already registered")) ∧
    s1.getToolCount = s.getToolCount + 1 ∧
    s1.listTools = s.listTools ++ [t1.getToolDefinition] := by
  unfold MCPServer.registerTool at hreg
  by_cases hdup : (mapGet s.tools t1.name).isSome
  · simp [hdup] at hreg
  · simp only [hdup, if_neg, ite_false, Bool.false_eq_true] at hreg
    have hs1 : s1 = { tools := s.tools ++ [(t1.name, t1)] } := by
      cases hreg' : s.registerTool t1
      simpa using congrArg Prod.fst hreg.symm
    subst hs1
    have hhit : mapGet (s.tools ++ [(t1.name, t1)]) t2.name = some t1 := by
      rw [mapGet_append, hname]
      have : mapGet s.tools t1.name = none := by
        cases hm : mapGet s.tools t1.name
        · rfl
        · rw [hm] at hdup; simp at hdup
      rw [this]
      simp [mapGet]
    refine ⟨?_, ?_, ?_⟩
    · simp [MCPServer.registerTool, hhit]
    · simp [MCPServer.getToolCount]
    · simp [MCPServer.listTools]

theorem claim3_witness :
    echoToolClone.name = echoTool.name ∧
    mkMCPServer.registerTool echoTool = (echoServer, none) ∧
    (echoServer.registerTool echoToolClone
      = (echoServer, some "Tool with name 'get-weather' is already registered") ∧
     echoServer.getToolCount = mkMCPServer.getToolCount + 1 ∧
     echoServer.listTools = mkMCPServer.listTools ++ [echoTool.getToolDefinition]) :=
  ⟨rfl, rfl, claim3_duplicate_rejected mkMCPServer echoServer echoTool echoToolClone rfl rfl⟩

/-- Claim C8: registering any list of contracts with pairwise distinct names
succeeds, and listing afterwards yields exactly one descriptor per contract —
the descriptors being precisely each tool's definition (name, description,
schema) in registration order, so the listed names agree with the registered
names. -/
theorem claim8_discovery_completeness (ts : List BaseTool)
    (h : (ts.map BaseTool.name).Nodup) :
    (registerAll mkMCPServer ts).2 = none ∧
    (registerAll mkMCPServer ts).1.listTools = ts.map BaseTool.getToolDefinition ∧
    (registerAll mkMCPServer ts).1.listTools.length = ts.length ∧
    (registerAll mkMCPServer ts).1.listTools.map ToolDefinition.name
      = ts.map BaseTool.name := by
  have hall := registerAll_disjoint ts mkMCPServer (fun t _ => rfl) h
  rw [hall]
  refine ⟨rfl, ?_, ?_, ?_⟩
  · simp [MCPServer.listTools, mkMCPServer, List.map_map]
  · simp [MCPServer.listTools, mkMCPServer]
  · simp [MCPServer.listTools, mkMCPServer, List.map_map]
    intro a _
    rfl

theorem claim8_witness :
    ([echoTool, clockTool].map BaseTool.name).Nodup ∧
    ((registerAll mkMCPServer [echoTool, clockTool]).2 = none ∧
     (registerAll mkMCPServer [echoTool, clockTool]).1.listTools
       = [echoTool, clockTool].map BaseTool.getToolDefinition ∧
     (registerAll mkMCPServer [echoTool, clockTool]).1.listTools.length = 2 ∧
     (registerAll mkMCPServer [echoTool, clockTool]).1.listTools.map ToolDefinition.name
       = ["get-weather", "get-time"]) := by
  refine ⟨by decide, ?_⟩
  have := claim8_discovery_completeness [echoTool, clockTool] (by decide)
  simpa using this


/-! ## Validator soundness lemmas -/

theorem arrAll_zany : ∀ (xs : JsonArray), arrAll (fun x => zodParse .zany x) xs = true
  | .nil => rfl
  | .cons v rest => by
    show (zodParse .zany v && arrAll (fun x => zodParse .zany x) rest) = true
    rw [arrAll_zany rest]
    rfl

mutual
theorem strictSound : ∀ (p : SchemaProperty) (v : JsonValue),
    strictSatisfies p v = true → zodParse (convertPropertyToZod p) v = true
  | .mk t d e it pr req, v => fun h => by
    unfold strictSatisfies at h
    unfold convertPropertyToZod
    by_cases ho : t = "object"
    · subst ho
      simp only [String.reduceEq, reduceIte] at h ⊢
      cases v with
      | obj fs =>
        cases pr with
        | some props =>
          simp only [zodParse]
          exact strictSoundProps props fs h
        | none => simp [zodParse]
      | null => exact Bool.noConfusion h
      | bool b => exact Bool.noConfusion h
      | num n => exact Bool.noConfusion h
      | str s => exact Bool.noConfusion h
      | arr xs => exact Bool.noConfusion h
    · by_cases hs : t = "string"
      · subst hs
        simp only [String.reduceEq, reduceIte] at h ⊢
        cases v <;> simp_all [zodParse]
      · by_cases hn : t = "number"
        · subst hn
          simp only [String.reduceEq, reduceIte] at h ⊢
          cases v <;> simp_all [zodParse]
        · by_cases hb : t = "boolean"
          · subst hb
            simp only [String.reduceEq, reduceIte] at h ⊢
            cases v <;> simp_all [zodParse]
          · by_cases ha : t = "array"
            · subst ha
              simp only [String.reduceEq, reduceIte] at h ⊢
              cases v with
              | arr xs =>
                cases it with
                | some i =>
                  simp only [zodParse]
                  exact strictSoundArr i xs h
                | none =>
                  simp only [zodParse]
                  exact arrAll_zany xs
              | null => exact Bool.noConfusion h
              | bool b => exact Bool.noConfusion h
              | num n => exact Bool.noConfusion h
              | str s => exact Bool.noConfusion h
              | obj fs => exact Bool.noConfusion h
            · simp [ho, hs, hn, hb, ha, zodParse]
termination_by p _ => (sizeOf p, 0)

theorem strictSoundProps : ∀ (props : SchemaProps) (fs : JsonFields),
    strictSatisfiesProps props fs = true → zodParseShape (convertProps props) fs = true
  | .nil, _ => fun _ => rfl
  | .cons k p rest, fs => fun h => by
    simp only [strictSatisfiesProps, Bool.and_eq_true] at h
    simp only [convertProps, zodParseShape, Bool.and_eq_true]
    refine ⟨?_, strictSoundProps rest fs h.2⟩
    cases hl : lookupField fs k with
    | some v =>
      rw [hl] at h
      exact strictSound p v h.1
    | none =>
      rw [hl] at h
      exact Bool.noConfusion h.1
termination_by props _ => (sizeOf props, 0)

theorem strictSoundArr : ∀ (i : SchemaProperty) (xs : JsonArray),
    arrAll (fun x => strictSatisfies i x) xs = true →
    arrAll (fun x => zodParse (convertPropertyToZod i) x) xs = true
  | _, .nil => fun _ => rfl
  | i, .cons v rest => fun h => by
    simp only [arrAll, Bool.and_eq_true] at h ⊢
    exact ⟨strictSound i v h.1, strictSoundArr i rest h.2⟩
termination_by i xs => (sizeOf i, sizeOf xs)
end

theorem topSound : ∀ (props : SchemaProps) (req : List String) (fs : JsonFields),
    topSatisfiesProps props req fs = true → zodParseShape (buildTopShape props req) fs = true
  | .nil, _, _ => fun _ => rfl
  | .cons k p rest, req, fs => fun h => by
    simp only [topSatisfiesProps, Bool.and_eq_true] at h
    simp only [buildTopShape, zodParseShape, Bool.and_eq_true]
    refine ⟨?_, topSound rest req fs h.2⟩
    cases hl : lookupField fs k with
    | some v =>
      rw [hl] at h
      exact strictSound p v h.1
    | none =>
      rw [hl] at h
      have h1 : (!req.contains k) = true := h.1
      show ((!req.contains k) || acceptsUndefined (convertPropertyToZod p)) = true
      rw [h1]
      rfl

theorem acceptsUndefined_convert (q : SchemaProperty) (hq : strictKind q = true) :
    acceptsUndefined (convertPropertyToZod q) = false := by
  obtain ⟨t, d, e, it, pr, req⟩ := q
  simp only [strictKind, SchemaProperty.type, Bool.or_eq_true, decide_eq_true_eq] at hq
  unfold convertPropertyToZod
  rcases hq with ((((h | h) | h) | h) | h) <;> subst h
  · rfl
  · rfl
  · rfl
  · cases it <;> rfl
  · cases pr <;> rfl

theorem buildTopShape_missing_required : ∀ (props : SchemaProps) (req : List String)
    (k : String) (q : SchemaProperty) (fs : JsonFields),
    lookupProp props k = some q → req.contains k = true → strictKind q = true →
    lookupField fs k = none →
    zodParseShape (buildTopShape props req) fs = false
  | .nil, req, k, q, fs => fun hq _ _ _ => by simp [lookupProp] at hq
  | .cons k' p rest, req, k, q, fs => fun hq hk hsk hm => by
    simp only [buildTopShape, zodParseShape]
    by_cases hkk : k' = k
    · subst hkk
      simp [lookupProp] at hq
      subst hq
      rw [hm, hk, acceptsUndefined_convert p hsk]
      rfl
    · rw [lookupProp, if_neg hkk] at hq
      rw [buildTopShape_missing_required rest req k q fs hq hk hsk hm]
      simp

theorem convertProps_missing_field : ∀ (props : SchemaProps) (k : String)
    (q : SchemaProperty) (fs : JsonFields),
    lookupProp props k = some q → strictKind q = true → lookupField fs k = none →
    zodParseShape (convertProps props) fs = false
  | .nil, k, q, fs => fun hq _ _ => by simp [lookupProp] at hq
  | .cons k' p rest, k, q, fs => fun hq hsk hm => by
    simp only [convertProps, zodParseShape]
    by_cases hkk : k' = k
    · subst hkk
      simp [lookupProp] at hq
      subst hq
      rw [hm, acceptsUndefined_convert p hsk]
      rfl
    · rw [lookupProp, if_neg hkk] at hq
      rw [convertProps_missing_field rest k q fs hq hsk hm]
      simp

theorem topSatisfies_sound (S : SchemaProperty) (V : JsonValue)
    (h : topSatisfies S V = true) : validateParams S V = true := by
  obtain ⟨t, d, e, it, pr, req⟩ := S
  unfold topSatisfies at h
  unfold validateParams jsonSchemaToZod
  by_cases ho : t = "object"
  · subst ho
    simp only [String.reduceEq, reduceIte] at h ⊢
    cases V with
    | obj fs =>
      simp only [zodParse]
      exact topSound _ _ fs h
    | null => exact Bool.noConfusion h
    | bool b => exact Bool.noConfusion h
    | num n => exact Bool.noConfusion h
    | str s => exact Bool.noConfusion h
    | arr xs => exact Bool.noConfusion h
  · simp [ho, zodParse]

/-- Claim C2 (amended): (1) for every schema `S` and value `V` structurally
generated to satisfy `S` — required top-level fields present, non-required
top-level fields freely absent, every present field matching its sub-schema
with nested objects carrying *all* fields their sub-schemas declare —
`validate` reports conformant; (2) for every value missing a required
top-level field whose declared kind is one of the recognized kinds,
`validate` reports non-conformant (a bare `false`; the outcome does not name
the field). -/
theorem claim2_validation_conformance :
    (∀ (S : SchemaProperty) (V : JsonValue),
        topSatisfies S V = true → validateParams S V = true) ∧
    (∀ (d : Option String) (e : Option (List String)) (it : Option SchemaProperty)
        (props : SchemaProps) (req : List String) (k : String) (q : SchemaProperty)
        (fs : JsonFields),
        lookupProp props k = some q → req.contains k = true → strictKind q = true →
        lookupField fs k = none →
        validateParams (.mk "object" d e it (some props) (some req)) (.obj fs) = false) := by
  constructor
  · exact topSatisfies_sound
  · intro d e it props req k q fs hq hk hsk hm
    unfold validateParams jsonSchemaToZod
    simp only [String.reduceEq, reduceIte, zodParse]
    exact buildTopShape_missing_required props req k q fs hq hk hsk hm

/-- Claim C2, counterexample to the claim as stated: `nestedValue` structurally
satisfies `nestedSchema` in the specification's sense (the nested field `b` is
declared but not required, so it may be absent), yet `validate` rejects it. -/
theorem claim2_counterexample :
    specSatisfies nestedSchema nestedValue = true
      ∧ validateParams nestedSchema nestedValue = false := ⟨rfl, rfl⟩

theorem claim2_witness :
    (topSatisfies weatherSchema (.obj (.cons "location" (.str "London") .nil)) = true
      ∧ validateParams weatherSchema (.obj (.cons "location" (.str "London") .nil)) = true)
    ∧ validateParams weatherSchema (.obj .nil) = false :=
  ⟨⟨rfl, claim2_validation_conformance.1 weatherSchema
      (.obj (.cons "location" (.str "London") .nil)) rfl⟩,
   claim2_validation_conformance.2 none none none
      (.cons "location" (.mk "string" none none none none none) .nil)
      ["location"] "location" (.mk "string" none none none none none) .nil
      rfl (by decide) (by decide) rfl⟩

/-- Claim C10: `convertPropertyToZod` never consults a nested object schema's
own `required` list (the conversion is identical for any two `required`
lists), and the resulting validator demands every declared nested field: any
object value missing a declared field of recognized kind is rejected,
regardless of that `required` list. -/
theorem claim10_nested_required_ignored (d : Option String) (e : Option (List String))
    (it : Option SchemaProperty) (props : SchemaProps) (r r' : Option (List String))
    (k : String) (q : SchemaProperty) (fs : JsonFields)
    (hq : lookupProp props k = some q) (hsk : strictKind q = true)
    (hm : lookupField fs k = none) :
    convertPropertyToZod (.mk "object" d e it (some props) r)
      = convertPropertyToZod (.mk "object" d e it (some props) r') ∧
    zodParse (convertPropertyToZod (.mk "object" d e it (some props) r)) (.obj fs) = false := by
  constructor
  · unfold convertPropertyToZod
    rfl
  · have hc : convertPropertyToZod (.mk "object" d e it (some props) r)
        = .zobject (convertProps props) := by
      unfold convertPropertyToZod
      simp only [String.reduceEq, reduceIte]
    rw [hc]
    simp only [zodParse]
    exact convertProps_missing_field props k q fs hq hsk hm

theorem claim10_witness :
    (convertPropertyToZod (.mk "object" none none none
        (some (.cons "b" (.mk "string" none none none none none) .nil)) (some []))
      = convertPropertyToZod (.mk "object" none none none
        (some (.cons "b" (.mk "string" none none none none none) .nil))
        (some ["b"])) ∧
    zodParse (convertPropertyToZod (.mk "object" none none none
        (some (.cons "b" (.mk "string" none none none none none) .nil)) (some [])))
      (.obj .nil) = false) ∧
    specSatisfies (.mk "object" none none none
        (some (.cons "b" (.mk "string" none none none none none) .nil)) (some []))
      (.obj .nil) = true :=
  ⟨claim10_nested_required_ignored none none none
      (.cons "b" (.mk "string" none none none none none) .nil) (some []) (some ["b"])
      "b" (.mk "string" none none none none none) .nil rfl (by decide) rfl,
   rfl⟩

/-! ## Undeclared-field permissiveness (claim C7) -/

theorem lookupField_append_ne : ∀ (fs : JsonFields) (k k0 : String) (w : JsonValue),
    ¬ k0 = k → lookupField (appendField fs k0 w) k = lookupField fs k
  | .nil, k, k0, w => fun h => by
    simp only [appendField, lookupField, if_neg h]
  | .cons k' v rest, k, k0, w => fun h => by
    simp only [appendField, lookupField]
    by_cases hk : k' = k
    · simp [hk]
    · simp only [if_neg hk]
      exact lookupField_append_ne rest k k0 w h

theorem zodParseShape_append : ∀ (shape : ZodShape) (fs : JsonFields) (k0 : String)
    (w : JsonValue), shapeHasKey shape k0 = false →
    zodParseShape shape (appendField fs k0 w) = zodParseShape shape fs
  | .nil, _, _, _ => fun _ => rfl
  | .cons k t opt rest, fs, k0, w => fun h => by
    simp only [shapeHasKey, Bool.or_eq_false_iff, decide_eq_false_iff_not] at h
    simp only [zodParseShape]
    rw [lookupField_append_ne fs k k0 w (fun he => h.1 he.symm)]
    rw [zodParseShape_append rest fs k0 w h.2]

theorem zodParse_extra_field (t : ZodType) (fs : JsonFields) (k0 : String) (w : JsonValue)
    (hk : zshapeHasKey t k0 = false) (h : zodParse t (.obj fs) = true) :
    zodParse t (.obj (appendField fs k0 w)) = true := by
  cases t with
  | zobject shape =>
    simp only [zodParse] at h ⊢
    simp only [zshapeHasKey] at hk
    rw [zodParseShape_append shape fs k0 w hk]
    exact h
  | zany => rfl
  | zrecord => rfl
  | zstring => exact Bool.noConfusion h
  | znumber => exact Bool.noConfusion h
  | zboolean => exact Bool.noConfusion h
  | zarray e => exact Bool.noConfusion h

theorem shapeHasKey_buildTopShape : ∀ (props : SchemaProps) (req : List String) (k : String),
    shapeHasKey (buildTopShape props req) k = propsHasKey props k
  | .nil, _, _ => rfl
  | .cons k' p rest, req, k => by
    simp only [buildTopShape, shapeHasKey, propsHasKey]
    rw [shapeHasKey_buildTopShape rest req k]

theorem shapeHasKey_convertProps : ∀ (props : SchemaProps) (k : String),
    shapeHasKey (convertProps props) k = propsHasKey props k
  | .nil, _ => rfl
  | .cons k' p rest, k => by
    simp only [convertProps, shapeHasKey, propsHasKey]
    rw [shapeHasKey_convertProps rest k]

theorem zshapeHasKey_convert (p : SchemaProperty) (k : String)
    (h : schemaDeclares p k = false) : zshapeHasKey (convertPropertyToZod p) k = false := by
  obtain ⟨t, d, e, it, pr, req⟩ := p
  simp only [schemaDeclares, SchemaProperty.properties] at h
  unfold convertPropertyToZod
  by_cases hs : t = "string"
  · simp [hs, zshapeHasKey]
  · by_cases hn : t = "number"
    · simp [hn, hs, zshapeHasKey]
    · by_cases hb : t = "boolean"
      · simp [hb, hs, hn, zshapeHasKey]
      · by_cases ha : t = "array"
        · simp only [hs, hn, hb, ha, String.reduceEq, reduceIte, if_pos rfl]
          cases it <;> simp [zshapeHasKey]
        · by_cases ho : t = "object"
          · simp only [hs, hn, hb, ha, ho, String.reduceEq, reduceIte, if_pos rfl]
            cases pr with
            | some props =>
              simp only at h
              simp only [zshapeHasKey]
              rw [shapeHasKey_convertProps props k]
              exact h
            | none => rfl
          · simp [hs, hn, hb, ha, ho, zshapeHasKey]

theorem zshapeHasKey_top (S : SchemaProperty) (k : String)
    (h : schemaDeclares S k = false) : zshapeHasKey (jsonSchemaToZod S) k = false := by
  obtain ⟨t, d, e, it, pr, req⟩ := S
  simp only [schemaDeclares, SchemaProperty.properties] at h
  unfold jsonSchemaToZod
  by_cases ho : t = "object"
  · simp only [ho, String.reduceEq, reduceIte, if_pos rfl, zshapeHasKey]
    cases pr with
    | some props =>
      simp only at h
      rw [shapeHasKey_buildTopShape]
      exact h
    | none =>
      cases req <;> rfl
  · simp [ho, zshapeHasKey]

/-- Claim C7: a field not declared among a schema's `properties` never causes
rejection — appending it to any value that validates leaves the value
validating, both through the top-level conversion (`validate`) and through the
nested-object conversion (`convertPropertyToZod`). -/
theorem claim7_undeclared_fields_accepted :
    (∀ (S : SchemaProperty) (fs : JsonFields) (k0 : String) (w : JsonValue),
        schemaDeclares S k0 = false → validateParams S (.obj fs) = true →
        validateParams S (.obj (appendField fs k0 w)) = true) ∧
    (∀ (p : SchemaProperty) (fs : JsonFields) (k0 : String) (w : JsonValue),
        schemaDeclares p k0 = false → zodParse (convertPropertyToZod p) (.obj fs) = true →
        zodParse (convertPropertyToZod p) (.obj (appendField fs k0 w)) = true) := by
  constructor
  · intro S fs k0 w hd hv
    exact zodParse_extra_field _ fs k0 w (zshapeHasKey_top S k0 hd) hv
  · intro p fs k0 w hd hv
    exact zodParse_extra_field _ fs k0 w (zshapeHasKey_convert p k0 hd) hv

theorem claim7_witness :
    (schemaDeclares weatherSchema "units" = false
      ∧ validateParams weatherSchema (.obj (.cons "location" (.str "London") .nil)) = true
      ∧ validateParams weatherSchema
          (.obj (appendField (.cons "location" (.str "London") .nil) "units" (.str "metric")))
        = true)
    ∧ (zodParse (convertPropertyToZod weatherSchema)
          (.obj (appendField (.cons "location" (.str "London") .nil) "units" (.str "metric")))
        = true) :=
  ⟨⟨rfl, rfl,
    claim7_undeclared_fields_accepted.1 weatherSchema
      (.cons "location" (.str "London") .nil) "units" (.str "metric") rfl rfl⟩,
   claim7_undeclared_fields_accepted.2 weatherSchema
      (.cons "location" (.str "London") .nil) "units" (.str "metric") rfl rfl⟩

/-! ## Router claims (C1, C4, C5, C6, C9) -/

theorem handleRequest_parse_error (s : MCPServer) (payload : JsonValue) (e : String)
    (hp : parseMCPRequest payload = .error e) : handleRequest s payload = (s, badRequest e) := by
  unfold handleRequest
  rw [hp]

theorem handleRequest_routed (s : MCPServer) (payload req : JsonValue)
    (hp : parseMCPRequest payload = .ok req) :
    handleRequest s payload
      = (match routeRequest s req with
         | .ok resp => (s, resp)
         | .error e => (s, badRequest e)) := by
  unfold handleRequest
  rw [hp]

/-- A routed (`Except.ok`) response populates exactly one arm. -/
theorem routeRequest_one_arm (s : MCPServer) (req : JsonValue) (resp : MCPResponse)
    (h : routeRequest s req = .ok resp) :
    (resp.result.isSome = true ∧ resp.error = none)
      ∨ (resp.result = none ∧ resp.error.isSome = true) := by
  unfold routeRequest at h
  by_cases h1 : strictEqStr (getField req "method") "tools/list"
  · rw [if_pos h1] at h
    cases h
    left
    exact ⟨rfl, rfl⟩
  · rw [if_neg h1] at h
    by_cases h2 : strictEqStr (getField req "method") "tools/call"
    · rw [if_pos h2] at h
      unfold handleToolsCall at h
      by_cases h3 : truthyOpt (getField ((getField req "params").getD .null) "name")
      · rw [if_neg (by simp [h3])] at h
        cases hex : MCPServer.executeTool s
            (((getField ((getField req "params").getD .null) "name")).getD .null)
            (match getField ((getField req "params").getD .null) "arguments" with
             | some a => if truthy a then a else .obj .nil
             | none => .obj .nil) with
        | ok r =>
          rw [hex] at h
          cases h
          left
          exact ⟨rfl, rfl⟩
        | error msg =>
          rw [hex] at h
          cases h
          right
          exact ⟨rfl, rfl⟩
      · rw [if_pos (by simp [h3])] at h
        exact Except.noConfusion h
    · rw [if_neg h2] at h
      exact Except.noConfusion h

/-- Claim C9: every response the router produces, for every registry state and
every decoded payload, populates exactly one of the `result` and `error` arms
— never both, never neither. -/
theorem claim9_exactly_one_arm (s : MCPServer) (payload : JsonValue) :
    ((handleRequest s payload).2.result.isSome = true
        ∧ (handleRequest s payload).2.error = none)
    ∨ ((handleRequest s payload).2.result = none
        ∧ (handleRequest s payload).2.error.isSome = true) := by
  cases hp : parseMCPRequest payload with
  | error e =>
    rw [handleRequest_parse_error s payload e hp]
    right
    exact ⟨rfl, rfl⟩
  | ok req =>
    rw [handleRequest_routed s payload req hp]
    cases hr : routeRequest s req with
    | ok resp =>
      exact routeRequest_one_arm s req resp hr
    | error e =>
      right
      exact ⟨rfl, rfl⟩

/-- Claim C4 (amended): a payload whose `method` is absent, falsy, or not one
of the recognized method strings yields an error response carrying numeric
code 400 and a message prefixed with the transport-error tag `BAD_REQUEST:`
(no `"TransportError"` kind string exists in the wire format); the registry
state is returned unchanged and the response does not depend on the registry
at all. -/
theorem claim4_transport_error (s : MCPServer) (payload : JsonValue)
    (h : methodUnrecognized payload = true) :
    (handleRequest s payload).1 = s ∧
    (handleRequest s payload).2.result = none ∧
    ((handleRequest s payload).2.error
        = some { code := 400, message := "BAD_REQUEST: " ++ "Missing required field: method" }
      ∨ (handleRequest s payload).2.error
        = some { code := 400, message := "BAD_REQUEST: " ++ ("Unsupported method: "
                   ++ jsDisplay ((getField payload "method").getD .null)) }) ∧
    (handleRequest s payload).2 = (handleRequest mkMCPServer payload).2 := by
  unfold methodUnrecognized at h
  by_cases ht : truthyOpt (getField payload "method") = true
  · have h2 : (! strictEqStr (getField payload "method") "tools/list"
        && ! strictEqStr (getField payload "method") "tools/call") = true := by
      rw [Bool.or_eq_true] at h
      rcases h with h1 | h2
      · rw [ht] at h1
        exact Bool.noConfusion h1
      · exact h2
    rw [Bool.and_eq_true] at h2
    have hp : parseMCPRequest payload
        = .error ("Unsupported method: " ++ jsDisplay ((getField payload "method").getD .null)) := by
      unfold parseMCPRequest
      rw [if_neg (by simp [ht]), if_pos (by rw [h2.1, h2.2]; rfl)]
    rw [handleRequest_parse_error s payload _ hp,
        handleRequest_parse_error mkMCPServer payload _ hp]
    exact ⟨rfl, rfl, Or.inr rfl, rfl⟩
  · have hp : parseMCPRequest payload = .error "Missing required field: method" := by
      unfold parseMCPRequest
      rw [if_pos (by simp [Bool.not_eq_true] at ht; rw [ht]; rfl)]
    rw [handleRequest_parse_error s payload _ hp,
        handleRequest_parse_error mkMCPServer payload _ hp]
    exact ⟨rfl, rfl, Or.inl rfl, rfl⟩

/-- Claim C4, counterexample to the claim as stated: routing
`{"method": "unknown"}` yields the error arm with *numeric* code 400 and a
`BAD_REQUEST:`-prefixed message; no field of the response carries the claimed
`"TransportError"` kind tag (the message does not even contain it). -/
theorem claim4_counterexample :
    handleRequest echoServer unknownMethodPayload
      = (echoServer, badRequest "Unsupported method: unknown") ∧
    (badRequest "Unsupported method: unknown").error
      = some { code := 400, message := "BAD_REQUEST: Unsupported method: unknown" } ∧
    ¬ ("TransportError".toList <:+: "BAD_REQUEST: Unsupported method: unknown".toList) :=
  ⟨rfl, rfl, by decide⟩

theorem claim4_witness :
    methodUnrecognized unknownMethodPayload = true ∧
    ((handleRequest echoServer unknownMethodPayload).1 = echoServer ∧
     (handleRequest echoServer unknownMethodPayload).2.result = none ∧
     ((handleRequest echoServer unknownMethodPayload).2.error
         = some { code := 400, message := "BAD_REQUEST: " ++ "Missing required field: method" }
       ∨ (handleRequest echoServer unknownMethodPayload).2.error
         = some { code := 400, message := "BAD_REQUEST: " ++ ("Unsupported method: "
                    ++ jsDisplay ((getField unknownMethodPayload "method").getD .null)) }) ∧
     (handleRequest echoServer unknownMethodPayload).2
       = (handleRequest mkMCPServer unknownMethodPayload).2) :=
  ⟨rfl, claim4_transport_error echoServer unknownMethodPayload rfl⟩

/-- Claim C5 (amended): a `tools/call` naming a target absent from the registry
yields the error arm with code -32603 and the message `Tool '<name>' not
found`, which carries the requested name; the set of registered names is not
part of the response (it is only logged for diagnostics), and the registry is
returned unchanged. -/
theorem claim5_unknown_tool (s : MCPServer) (p : JsonValue) (n : String)
    (hn : ¬ n = "") (hname : getField p "name" = some (.str n))
    (hlk : mapGet s.tools n = none) :
    handleRequest s (callPayload p)
      = (s, { result := none
              error := some { code := -32603, message := "Tool '" ++ n ++ "' not found" } }) := by
  have h1 : truthyOpt (getField (callPayload p) "method") = true := rfl
  have h2 : strictEqStr (getField (callPayload p) "method") "tools/list" = false := rfl
  have h3 : strictEqStr (getField (callPayload p) "method") "tools/call" = true := rfl
  have hpn : paramsName (callPayload p) = getField p "name" := rfl
  have hp : parseMCPRequest (callPayload p) = .ok (callPayload p) := by
    unfold parseMCPRequest
    rw [h1, h2, h3, hpn, hname]
    simp [truthyOpt, truthy, hn]
  rw [handleRequest_routed s _ _ hp]
  have hro : routeRequest s (callPayload p) = handleToolsCall s p := rfl
  rw [hro]
  have hex : ∀ args : JsonValue, s.executeTool (.str n) args
      = .error ("Tool '" ++ n ++ "' not found") := by
    intro args
    unfold MCPServer.executeTool
    simp [hlk, jsDisplay]
  unfold handleToolsCall
  rw [hname]
  simp [truthyOpt, truthy, hn, hex]

theorem claim5_counterexample :
    handleRequest echoServer unknownToolPayload
      = (echoServer,
         { result := none
           error := some { code := -32603, message := "Tool 'does-not-exist' not found" } }) ∧
    echoServer.tools.map Prod.fst = ["get-weather"] ∧
    ¬ ("get-weather".toList <:+: "Tool 'does-not-exist' not found".toList) :=
  ⟨rfl, rfl, by decide⟩

theorem claim5_witness :
    ¬ "does-not-exist" = "" ∧
    getField (.obj (jobj [("name", .str "does-not-exist"), ("arguments", .obj .nil)])) "name"
      = some (.str "does-not-exist") ∧
    mapGet echoServer.tools "does-not-exist" = none ∧
    handleRequest echoServer
        (callPayload (.obj (jobj [("name", .str "does-not-exist"),
                                  ("arguments", .obj .nil)])))
      = (echoServer,
         { result := none
           error := some { code := -32603, message := "Tool 'does-not-exist' not found" } }) :=
  ⟨by decide, rfl, rfl,
   claim5_unknown_tool echoServer
     (.obj (jobj [("name", .str "does-not-exist"), ("arguments", .obj .nil)]))
     "does-not-exist" (by decide) rfl rfl⟩

/-- Claim C6 (amended): the validator's outcome is a bare boolean (`validate`
returns `false` on non-conformant arguments, carrying no violation report),
and a failed validation surfaces as the generic thrown message
`Invalid parameters for tool '<name>'`, which names only the tool — the
response carries no per-field violation list. -/
theorem claim6_validation_bare_boolean (s : MCPServer) (n : String) (tool : BaseTool)
    (args : JsonValue) (hlk : mapGet s.tools n = some tool)
    (hv : tool.validate args = false) :
    s.executeTool (.str n) args = .error ("Invalid parameters for tool '" ++ n ++ "'") := by
  unfold MCPServer.executeTool
  simp [hlk, hv, jsDisplay]

theorem claim6_counterexample :
    BaseTool.validate echoTool (.obj .nil) = false ∧
    handleRequest echoServer missingArgsPayload
      = (echoServer,
         { result := none
           error := some { code := -32603,
                           message := "Invalid parameters for tool 'get-weather'" } }) ∧
    ¬ ("location".toList <:+: "Invalid parameters for tool 'get-weather'".toList) :=
  ⟨rfl, rfl, by decide⟩

theorem claim6_witness :
    mapGet echoServer.tools "get-weather" = some echoTool ∧
    echoTool.validate (.obj .nil) = false ∧
    echoServer.executeTool (.str "get-weather") (.obj .nil)
      = .error ("Invalid parameters for tool '" ++ "get-weather" ++ "'") :=
  ⟨rfl, rfl, claim6_validation_bare_boolean echoServer "get-weather" echoTool (.obj .nil) rfl rfl⟩

/-- Claim C1 (amended): with the method spelled `tools/call` as the code
requires, the scenario request routes to the stub tool: parsing succeeds,
validation of `{"location": "London"}` passes, the tool's `execute` runs, and
its return value `{"echo": "London"}` is wrapped unchanged in the `result`
arm, the `error` arm staying empty. -/
theorem claim1_successful_call :
    handleRequest echoServer toolsCallPayload
      = (echoServer, { result := some (.obj (.cons "echo" (.str "London") .nil))
                       error := none }) ∧
    parseMCPRequest toolsCallPayload = .ok toolsCallPayload ∧
    echoTool.validate (.obj (.cons "location" (.str "London") .nil)) = true ∧
    echoTool.execute (.obj (.cons "location" (.str "London") .nil))
      = .ok (.obj (.cons "echo" (.str "London") .nil)) :=
  ⟨rfl, rfl, rfl, rfl⟩

/-- Claim C1, counterexample to the claim as stated: the request written with
`"method": "call"` — the spec's spelling — is rejected by `parseMCPRequest`
with a 400 `BAD_REQUEST` response; its `result` arm is empty, so the claimed
`{"result": {"echo": "London"}}` is not produced. -/
theorem claim1_counterexample :
    handleRequest echoServer specCallPayload
      = (echoServer, badRequest "Unsupported method: call") ∧
    (handleRequest echoServer specCallPayload).2.result = none :=
  ⟨rfl, rfl⟩
end MCP
